import Mathlib

/-!
Shallow embedding of `src/explorer.rs` from the readme-gen repository.

The explorer walks a repository tree (via the `walkdir` crate), classifies
files by extension, parses `Cargo.toml` manifests, and extracts top-level
declarations from Rust sources (via the `syn` crate).  External library
behaviour is embedded as data: a file's bytes are abstracted by the outcome
of reading them (`readable`), of `syn::parse_str` on them (`synResult`) and
of `toml::from_str` on them (`tomlResult`); `walkdir`'s enumeration of an
existing tree is the depth-first preorder listing, and a nonexistent root
makes `WalkDir` yield a single `Err` entry, which `filter_map(Result::ok)`
drops.  File and directory names are modelled as `String` (valid UTF-8; the
`to_str` fallback branches of the source are noted where they occur).
-/

/-- `RepoError` from explorer.rs: `Io`, `Toml`, `Syn` (payloads elided). -/
inductive RepoError where
  | io
  | toml
  | syn
deriving DecidableEq, Repr

/-- `CargoPackage`: `name`, `version`, `description`. -/
structure CargoPackage where
  name : String
  version : String
  description : Option String
deriving DecidableEq, Repr

/-- `CargoToml`: optional `package` table and dependency tables.  The
`toml::Value` payloads of dependency entries are abstracted as strings. -/
structure CargoToml where
  package : Option CargoPackage
  dependencies : Option (List (String × String))
  dev_dependencies : Option (List (String × String))
deriving DecidableEq, Repr

/-- `FunctionMeta`: `params`, `returns`, `visibility` (all strings). -/
structure FunctionMeta where
  params : List String
  returns : String
  visibility : String
deriving DecidableEq, Repr

/-- `FileInformation`.  The Rust `HashMap`s are modelled as association
lists with insert-replaces-existing-key semantics (`insertAssoc`). -/
structure FileInformation where
  file_name : String
  structs : List (String × List String)
  functions : List (String × FunctionMeta)
  /-- The source field is named `variables`; that spelling is reserved in
  Lean 4, so the field is named `vars` here. -/
  vars : List String
  enums : List (String × List String)
  others : List String
deriving DecidableEq, Repr

/-- `RepoCodeContext`. -/
structure RepoCodeContext where
  repo_name : String
  languages : List (String × Nat)
  files : List FileInformation
  folders : List String
  dependencies : List CargoToml
deriving DecidableEq, Repr

/-- `syn::Visibility`, reduced to what the source matches on:
`Public(_)` versus everything else (the catch-all `_` arm). -/
inductive SynVisibility where
  | public
  | restricted
  | inherited
deriving DecidableEq, Repr

/-- A typed argument `syn::PatType`: token-stream texts of its pattern and
its type. -/
structure FnArgTyped where
  pat : String
  ty : String
deriving DecidableEq, Repr

/-- `syn::FnArg`: a `self` receiver or a typed argument. -/
inductive FnArg where
  | receiver
  | typed (t : FnArgTyped)
deriving DecidableEq, Repr

/-- The part of `syn::Signature` the source reads: `ident`, `inputs`, and
`output` (`none` for `ReturnType::Default`, `some ty` for the token-stream
text of a declared return type). -/
structure FnSig where
  ident : String
  inputs : List FnArg
  output : Option String
deriving DecidableEq, Repr

/-- A `syn::ItemFn`: its visibility and signature. -/
structure ItemFn where
  vis : SynVisibility
  sig : FnSig
deriving DecidableEq, Repr

/-- `syn::Fields` of a struct: named fields (`ident` can in principle be
absent, mirroring the `if let Some(ident)` in the source), unnamed fields
(token-stream text of each type), or a unit struct. -/
inductive SynFields where
  | named (idents : List (Option String))
  | unnamed (tys : List String)
  | unit
deriving DecidableEq, Repr

/-- `syn::Item`, reduced to the variants the source matches on.  `implItem`
carries the functions declared inside an `impl` block; the source's
catch-all `_ => {}` arm covers it and every `other` item. -/
inductive Item where
  | fn (f : ItemFn)
  | constItem (ident : String)
  | enumItem (ident : String) (variants : List String)
  | structItem (ident : String) (fields : SynFields)
  | staticItem (ident : String)
  | implItem (methods : List ItemFn)
  | other
deriving DecidableEq, Repr

/-- Abstraction of a file's bytes: whether reading them succeeds, and the
outcomes of `syn::parse_str` and `toml::from_str` on the contents. -/
structure FileBytes where
  readable : Bool
  synResult : Option (List Item)
  tomlResult : Option CargoToml
deriving DecidableEq, Repr

/-- A filesystem tree: the input to the walk.  Directory children are
listed in the order the OS enumerates them (fixed for a fixed tree). -/
inductive FsTree where
  | file (name : String) (bytes : FileBytes)
  | dir (name : String) (children : List FsTree)

/-- Name of the root entry of a tree. -/
def FsTree.name : FsTree → String
  | .file n _ => n
  | .dir n _ => n

mutual

/-- `walkdir::WalkDir` enumeration of an existing tree: depth-first
preorder, the root entry first, directories before their contents. -/
def FsTree.entries : FsTree → List FsTree
  | .file n b => [.file n b]
  | .dir n cs => .dir n cs :: entriesOf cs

/-- Concatenated enumerations of a list of sibling trees, in order. -/
def entriesOf : List FsTree → List FsTree
  | [] => []
  | t :: ts => t.entries ++ entriesOf ts

end

/-- The root argument of `walk_repo`: either a path whose last component is
`nm` but which does not exist on disk, or an existing tree.  For a missing
root, `WalkDir` yields one `Err` entry and `filter_map(Result::ok)` drops
it, so the walk sees no entries at all. -/
inductive Root where
  | missing (nm : String)
  | present (t : FsTree)

/-- `dir_path.file_name().unwrap_or_default().to_string_lossy()`. -/
def rootName : Root → String
  | .missing nm => nm
  | .present t => t.name

/-- The sequence of entries the `for` loop of `walk_repo` iterates over. -/
def rootEntries : Root → List FsTree
  | .missing _ => []
  | .present t => t.entries

/-- Association-list lookup (models `HashMap` lookup). -/
def lookupAssoc {α : Type} (k : String) : List (String × α) → Option α
  | [] => none
  | (k', v) :: rest => if k = k' then some v else lookupAssoc k rest

/-- Association-list insert: replaces the value under an existing key,
otherwise appends (models `HashMap::insert`). -/
def insertAssoc {α : Type} (k : String) (v : α) : List (String × α) → List (String × α)
  | [] => [(k, v)]
  | (k', v') :: rest =>
    if k' = k then (k, v) :: rest else (k', v') :: insertAssoc k v rest

/-- `*repo.languages.entry(lang).or_insert(0) += 1`. -/
def bumpCount (k : String) : List (String × Nat) → List (String × Nat)
  | [] => [(k, 1)]
  | (k', v) :: rest =>
    if k' = k then (k', v + 1) :: rest else (k', v) :: bumpCount k rest

/-- Sum of the values of a count mapping (the spec's
`sum(languageCounts.values())`). -/
def sumCounts : List (String × Nat) → Nat
  | [] => 0
  | p :: m => p.2 + sumCounts m

/-- `s.starts_with(".")`, stated over the character list so that concrete
instances reduce in the kernel. -/
def startsWithDot (name : String) : Bool :=
  match name.data with
  | '.' :: _ => true
  | _ => false

/-- `invalid_path` from explorer.rs: name starts with `.` or is on the
denylist.  (The `to_str` failure branch returns `false`; names here are
always valid UTF-8 strings.) -/
def invalid_path (name : String) : Bool :=
  startsWithDot name ||
    (name == "target" || name == "node_modules" || name == "venv" || name == "__pycache__")

/-- `is_cargo_toml` from explorer.rs. -/
def is_cargo_toml (name : String) : Bool :=
  name = "Cargo.toml"

/-- `map_extension_to_language` from explorer.rs. -/
def map_extension_to_language (ext : String) : String :=
  if ext = "rs" then "Rust" else ext

/-- The characters after the last `.` of a character list, `none` when no
`.` occurs. -/
def afterLastDot : List Char → Option (List Char)
  | [] => none
  | c :: cs =>
    match afterLastDot cs with
    | some e => some e
    | none => if c = '.' then some cs else none

/-- `std::path::Path::extension` on a file name: the portion after the last
`.`; `none` when the name contains no `.`, or when its only `.` is the
leading one (hidden files like `.gitignore`).  The leading character is
exempted from dot-search, exactly Rust's rule that the part before the last
dot must be non-empty.  Special components such as `.` and `..` are not
file names and are out of scope. -/
def pathExtension (name : String) : Option String :=
  match name.data with
  | [] => none
  | c :: cs =>
    if c = '.' then (afterLastDot cs).map String.mk
    else (afterLastDot (c :: cs)).map String.mk

/-- `FileInformation::new`. -/
def FileInformation.new (file_name : String) : FileInformation :=
  { file_name := file_name, structs := [], functions := [], vars := [],
    enums := [], others := [] }

/-- `RepoCodeContext::new`. -/
def RepoCodeContext.new (repo_name : String) : RepoCodeContext :=
  { repo_name := repo_name, languages := [], files := [], folders := [],
    dependencies := [] }

/-- `CargoToml::parse`: read the file to a string (`?` on an IO error),
then `toml::from_str` (`?` on a TOML error). -/
def CargoToml.parse (bytes : FileBytes) : Except RepoError CargoToml :=
  if bytes.readable then
    match bytes.tomlResult with
    | none => .error .toml
    | some c => .ok c
  else .error .io

/-- The `syn::FnArg` rendering in `parse_rust_file`: a receiver becomes
`"self"`, a typed argument becomes `format!("\x7b\x7d : \x7b\x7d", pat, ty)`. -/
def renderArg : FnArg → String
  | .receiver => "self"
  | .typed t => t.pat ++ " : " ++ t.ty

/-- The `ReturnType` rendering in `parse_rust_file`: `"None"` for a default
(absent) return type, otherwise the type's token-stream text. -/
def renderOutput : Option String → String
  | none => "None"
  | some t => t

/-- The visibility rendering in `parse_rust_file`: `"public"` for
`Visibility::Public(_)`, `"private"` for everything else. -/
def renderVis : SynVisibility → String
  | .public => "public"
  | _ => "private"

/-- The `FunctionMeta` built from one `syn::ItemFn` by `parse_rust_file`. -/
def mkMeta (f : ItemFn) : FunctionMeta :=
  { params := f.sig.inputs.map renderArg,
    returns := renderOutput f.sig.output,
    visibility := renderVis f.vis }

/-- Struct-field rendering in `parse_rust_file`: named field idents in
order; unnamed fields as `format!("field\x7b\x7d: \x7b\x7d", i, ty)`; unit
structs contribute no fields. -/
def renderFields : SynFields → List String
  | .named l => l.filterMap id
  | .unnamed tys => (tys.enum.map fun p => "field" ++ toString p.1 ++ ": " ++ p.2)
  | .unit => []

/-- The body of the `for item in syntax_tree.items` loop of
`parse_rust_file`: how one `syn::Item` updates the `FileInformation`. -/
def processItem (fi : FileInformation) : Item → FileInformation
  | .fn f =>
    { fi with functions := insertAssoc f.sig.ident (mkMeta f) fi.functions }
  | .constItem n => { fi with vars := fi.vars ++ [n] }
  | .enumItem n vs => { fi with enums := insertAssoc n vs fi.enums }
  | .structItem n fs =>
    { fi with structs := insertAssoc n (renderFields fs) fi.structs }
  | .staticItem n => { fi with vars := fi.vars ++ [n] }
  | _ => fi

/-- `parse_rust_file` from explorer.rs: read the source (`?` on an IO
error), `syn::parse_str` (`?` on a syntax error), then fold the items into
a fresh `FileInformation`.  (The `file_name` extraction cannot fail here
since names are valid UTF-8 strings in the model.) -/
def parse_rust_file (name : String) (bytes : FileBytes) :
    Except RepoError FileInformation :=
  if bytes.readable then
    match bytes.synResult with
    | none => .error .syn
    | some items => .ok (items.foldl processItem (FileInformation.new name))
  else .error .io

/-- The outcome of `walk_repo`: a normal return (`Ok` or `Err`), or a
process abort — the `todo!` macro panics, and `aborted ext` records the
extension interpolated into its message. -/
inductive WalkResult where
  | ok (r : RepoCodeContext)
  | err (e : RepoError)
  | aborted (ext : String)
deriving DecidableEq, Repr

/-- The effect of one iteration of the `for entry in WalkDir::new(..)`
loop of `walk_repo`: either the loop continues with an updated
accumulator (`next`), or control leaves the loop — an early `return Err`
through `?`, or the `todo!` panic (`halt`). -/
inductive StepResult where
  | next (repo : RepoCodeContext)
  | halt (w : WalkResult)
deriving DecidableEq, Repr

/-- The file branch of the loop body of `walk_repo`.  A file that survives
`invalid_path` and has an extension is counted into `languages`; if it is
named `Cargo.toml` it is opened and parsed (`?` leaves the loop with the
error); then `ext == "rs"` routes it to `parse_rust_file` (`?` leaves the
loop) while any other extension reaches `todo!`, which panics. -/
def fileStep (name : String) (bytes : FileBytes) (repo : RepoCodeContext) :
    StepResult :=
  if invalid_path name then .next repo
  else
    match pathExtension name with
    | none => .next repo
    | some ext =>
      let lang := map_extension_to_language ext
      let repo1 := { repo with languages := bumpCount lang repo.languages }
      let afterCargo : Except RepoError RepoCodeContext :=
        if is_cargo_toml name then
          match CargoToml.parse bytes with
          | .error e => .error e
          | .ok c =>
            .ok { repo1 with dependencies := repo1.dependencies ++ [c] }
        else .ok repo1
      match afterCargo with
      | .error e => .halt (.err e)
      | .ok repo2 =>
        if ext = "rs" then
          match parse_rust_file name bytes with
          | .error e => .halt (.err e)
          | .ok fi => .next { repo2 with files := repo2.files ++ [fi] }
        else .halt (.aborted ext)

/-- The loop body of `walk_repo` on one entry: files go through
`fileStep`; a surviving directory pushes its name onto `folders`. -/
def entryStep (e : FsTree) (repo : RepoCodeContext) : StepResult :=
  match e with
  | .file name bytes => fileStep name bytes repo
  | .dir name _ =>
    if invalid_path name then .next repo
    else .next { repo with folders := repo.folders ++ [name] }

/-- The `for` loop of `walk_repo` over the enumerated entries. -/
def walkEntries : List FsTree → RepoCodeContext → WalkResult
  | [], repo => .ok repo
  | e :: rest, repo =>
    match entryStep e repo with
    | .next repo' => walkEntries rest repo'
    | .halt w => w

/-- `walk_repo` from explorer.rs: name the repository after the root
path's last component, then fold the walk over the enumerated entries. -/
def walkRepo (root : Root) : WalkResult :=
  walkEntries (rootEntries root) (RepoCodeContext.new (rootName root))

/-! ### Claim-side definitions -/

/-- Whether an enumerated entry is a file that survives `invalid_path` and
carries an extension — the files the spec calls "classified". -/
def isClassifiedFile : FsTree → Bool
  | .file n _ => !invalid_path n && (pathExtension n).isSome
  | .dir _ _ => false

/-- Number of classified files among the enumerated entries. -/
def classifiedCount (es : List FsTree) : Nat := es.countP isClassifiedFile

/-- Modelled from the spec's words (§3): a parameter rendered as a
`name: type` string, with the colon directly after the name. -/
def specParamRender (nm ty : String) : String := nm ++ ": " ++ ty

/-- Modelled from the spec's words (§3): the `"none"` sentinel for an
absent return type. -/
def specNoneSentinel : String := "none"

/-! ### Concrete inputs used by the claim theorems -/

/-- A repository with one Python file: its extension has no analyzer. -/
def c1tree : FsTree := .dir "r" [.file "a.py" ⟨true, none, none⟩]

/-- A repository with a malformed Rust file followed by a well-formed
one. -/
def c2tree : FsTree :=
  .dir "r" [.file "bad.rs" ⟨true, none, none⟩, .file "good.rs" ⟨true, some [], none⟩]

/-- A repository with a `Cargo.toml` whose contents are not valid TOML. -/
def c3tree : FsTree := .dir "r" [.file "Cargo.toml" ⟨true, none, none⟩]

/-- A repository whose only file lives inside the denylisted `target`
directory. -/
def c4tree : FsTree := .dir "r" [.dir "target" [.file "lib.rs" ⟨true, some [], none⟩]]

/-- A repository with one well-formed Rust file declaring `pub fn main`. -/
def c6tree : FsTree :=
  .dir "app" [.file "main.rs" ⟨true, some [.fn ⟨.public, ⟨"main", [], none⟩⟩], none⟩]

/-- The model produced by scanning `c6tree`. -/
def c6repo : RepoCodeContext :=
  { repo_name := "app", languages := [("Rust", 1)],
    files := [{ file_name := "main.rs", structs := [],
                functions := [("main", ⟨[], "None", "public"⟩)],
                vars := [], enums := [], others := [] }],
    folders := ["app"], dependencies := [] }

/-- One top-level `pub fn add(x: i32, y: i32)` with no return type. -/
def c7items : List Item :=
  [.fn ⟨.public, ⟨"add", [.typed ⟨"x", "i32"⟩, .typed ⟨"y", "i32"⟩], none⟩⟩]

/-- Bytes of a Rust file parsing to `c7items`. -/
def c7bytes : FileBytes := ⟨true, some c7items, none⟩

/-- The `FileInformation` produced from `c7bytes`. -/
def c7fi : FileInformation :=
  { file_name := "lib.rs", structs := [],
    functions := [("add", ⟨["x : i32", "y : i32"], "None", "public"⟩)],
    vars := [], enums := [], others := [] }

/-- A repository with a subdirectory and one Rust file. -/
def c8tree : FsTree := .dir "repo" [.dir "docs" [], .file "a.rs" ⟨true, some [], none⟩]

/-- The model produced by scanning `c8tree`. -/
def c8repo : RepoCodeContext :=
  { repo_name := "repo", languages := [("Rust", 1)],
    files := [FileInformation.new "a.rs"], folders := ["repo", "docs"],
    dependencies := [] }

/-- An `impl` block with a method, a free `fn`, and a `const`. -/
def c10items : List Item :=
  [.implItem [⟨.public, ⟨"push_item", [.receiver], some "bool"⟩⟩],
   .fn ⟨.inherited, ⟨"helper", [], some "u8"⟩⟩,
   .constItem "MAX"]

/-- Bytes of a Rust file parsing to `c10items`. -/
def c10bytes : FileBytes := ⟨true, some c10items, none⟩

/-- The `FileInformation` produced from `c10bytes`: the `impl` method is
absent, only the free function and the constant appear. -/
def c10fi : FileInformation :=
  { file_name := "m.rs", structs := [],
    functions := [("helper", ⟨[], "u8", "private"⟩)],
    vars := ["MAX"], enums := [], others := [] }

/-! ### Helper lemmas -/

/-- `bumpCount` increases the total of a count mapping by exactly one. -/
theorem sumCounts_bumpCount (k : String) (m : List (String × Nat)) :
    sumCounts (bumpCount k m) = sumCounts m + 1 := by
  induction m with
  | nil => simp [bumpCount, sumCounts]
  | cons p rest ih =>
    obtain ⟨k', v⟩ := p
    simp only [bumpCount]
    split_ifs with h
    · simp [sumCounts]; omega
    · simp [sumCounts, ih]; omega

/-- One loop iteration either continues, adding one to the language total
exactly for a classified file, or leaves the loop with a non-`ok`
outcome. -/
theorem entryStep_sum_spec (e : FsTree) (repo : RepoCodeContext) :
    (∃ repo', entryStep e repo = .next repo' ∧
      sumCounts repo'.languages =
        sumCounts repo.languages + (if isClassifiedFile e then 1 else 0)) ∨
    (∃ w, entryStep e repo = .halt w ∧ ∀ r, w ≠ .ok r) := by
  cases e with
  | dir n cs =>
    left
    by_cases hv : invalid_path n
    · exact ⟨repo, by simp [entryStep, hv, isClassifiedFile]⟩
    · exact ⟨{ repo with folders := repo.folders ++ [n] },
        by simp [entryStep, hv, isClassifiedFile]⟩
  | file n b =>
    simp only [entryStep]
    by_cases hv : invalid_path n
    · left
      exact ⟨repo, by simp [fileStep, hv, isClassifiedFile]⟩
    · rcases hpe : pathExtension n with _ | ext
      · left
        exact ⟨repo, by simp [fileStep, hv, hpe, isClassifiedFile]⟩
      · simp only [fileStep, hv, Bool.false_eq_true, if_false, hpe]
        by_cases hct : is_cargo_toml n
        · simp only [hct, if_true]
          rcases hcp : CargoToml.parse b with e1 | c
          · right
            refine ⟨.err e1, by simp [hcp], by simp⟩
          · simp only [hcp]
            by_cases hrs : ext = "rs"
            · subst hrs
              rcases hpr : parse_rust_file n b with e2 | fi
              · right
                exact ⟨.err e2, by simp [hpr], by simp⟩
              · left
                refine ⟨{ repo with
                    languages := bumpCount (map_extension_to_language "rs") repo.languages,
                    dependencies := repo.dependencies ++ [c],
                    files := repo.files ++ [fi] }, ?_, ?_⟩
                · simp [hpr]
                · simp [isClassifiedFile, hv, hpe, sumCounts_bumpCount]
            · right
              exact ⟨.aborted ext, by simp [hrs], by simp⟩
        · simp only [hct, if_false]
          by_cases hrs : ext = "rs"
          · subst hrs
            rcases hpr : parse_rust_file n b with e2 | fi
            · right
              exact ⟨.err e2, by simp [hpr], by simp⟩
            · left
              refine ⟨{ repo with
                  languages := bumpCount (map_extension_to_language "rs") repo.languages,
                  files := repo.files ++ [fi] }, ?_, ?_⟩
              · simp [hpr]
              · simp [isClassifiedFile, hv, hpe, sumCounts_bumpCount]
          · right
            exact ⟨.aborted ext, by simp [hrs], by simp⟩

/-- Over any completed stretch of the walk, the language total grows by
exactly the number of classified files among the processed entries. -/
theorem walkEntries_ok_sum (es : List FsTree) (repo r : RepoCodeContext)
    (h : walkEntries es repo = .ok r) :
    sumCounts r.languages = sumCounts repo.languages + classifiedCount es := by
  induction es generalizing repo with
  | nil =>
    simp only [walkEntries, WalkResult.ok.injEq] at h
    subst h
    simp [classifiedCount]
  | cons e rest ih =>
    simp only [walkEntries] at h
    rcases entryStep_sum_spec e repo with ⟨repo', hstep, hsum⟩ | ⟨w, hstep, hnot⟩
    · rw [hstep] at h
      have := ih _ h
      simp only [classifiedCount, List.countP_cons] at this ⊢
      rw [this, hsum]
      by_cases hc : isClassifiedFile e
      · simp [hc]; omega
      · simp [hc]
    · rw [hstep] at h
      exact absurd h (hnot r)

/-- Unfolding `lookupAssoc` on a cons cell. -/
theorem lookupAssoc_cons {α : Type} (k a : String) (b : α)
    (rest : List (String × α)) :
    lookupAssoc k ((a, b) :: rest) =
      if k = a then some b else lookupAssoc k rest := rfl

/-- Unfolding `insertAssoc` on a cons cell. -/
theorem insertAssoc_cons {α : Type} (k a : String) (v b : α)
    (rest : List (String × α)) :
    insertAssoc k v ((a, b) :: rest) =
      if a = k then (k, v) :: rest else (a, b) :: insertAssoc k v rest := rfl

/-- Looking up after an insert: the inserted key maps to the new value,
every other key is unaffected. -/
theorem lookupAssoc_insertAssoc {α : Type} (k k' : String) (v : α)
    (m : List (String × α)) :
    lookupAssoc k (insertAssoc k' v m) =
      if k = k' then some v else lookupAssoc k m := by
  induction m with
  | nil => simp [insertAssoc, lookupAssoc]
  | cons p rest ih =>
    obtain ⟨a, b⟩ := p
    rw [insertAssoc_cons]
    by_cases h1 : a = k'
    · subst h1
      rw [if_pos rfl, lookupAssoc_cons, lookupAssoc_cons]
      split_ifs <;> simp_all
    · rw [if_neg h1, lookupAssoc_cons, lookupAssoc_cons, ih]
      split_ifs <;> simp_all

/-- No arm of the item loop ever touches the `others` field. -/
theorem processItem_others (fi : FileInformation) (i : Item) :
    (processItem fi i).others = fi.others := by
  cases i <;> rfl

/-- Folding the item loop over any item list preserves `others`. -/
theorem foldl_processItem_others (items : List Item) (fi : FileInformation) :
    (items.foldl processItem fi).others = fi.others := by
  induction items generalizing fi with
  | nil => rfl
  | cons i rest ih => rw [List.foldl_cons, ih, processItem_others]

/-- Provenance of `functions` entries: every binding present after the
item loop was either already present or comes from a top-level `fn` item,
with exactly the metadata `mkMeta` builds. -/
theorem foldl_processItem_functions (items : List Item) (fi : FileInformation)
    (fname : String) (meta : FunctionMeta)
    (h : lookupAssoc fname (items.foldl processItem fi).functions = some meta) :
    lookupAssoc fname fi.functions = some meta ∨
      ∃ f : ItemFn, Item.fn f ∈ items ∧ f.sig.ident = fname ∧ meta = mkMeta f := by
  induction items generalizing fi with
  | nil => exact Or.inl h
  | cons i rest ih =>
    rw [List.foldl_cons] at h
    rcases ih (processItem fi i) h with h' | ⟨f, hf, hid, hm⟩
    · cases i with
      | fn f' =>
        simp only [processItem] at h'
        rw [lookupAssoc_insertAssoc] at h'
        split_ifs at h' with he
        · injection h' with h''
          exact Or.inr ⟨f', List.mem_cons_self _ _, he.symm, h''.symm⟩
        · exact Or.inl h'
      | constItem n => exact Or.inl h'
      | enumItem n vs => exact Or.inl h'
      | structItem n fs => exact Or.inl h'
      | staticItem n => exact Or.inl h'
      | implItem ms => exact Or.inl h'
      | other => exact Or.inl h'
    · exact Or.inr ⟨f, List.mem_cons_of_mem _ hf, hid, hm⟩

/-- A successful `parse_rust_file` is exactly the item-loop fold over the
parsed items, started from a fresh `FileInformation`. -/
theorem parse_rust_file_ok (name : String) (bytes : FileBytes)
    (items : List Item) (fi : FileInformation)
    (hs : bytes.synResult = some items)
    (hp : parse_rust_file name bytes = .ok fi) :
    fi = items.foldl processItem (FileInformation.new name) := by
  by_cases hr : bytes.readable
  · simp only [parse_rust_file, hr, if_true, hs] at hp
    injection hp with hp'
    exact hp'.symm
  · simp [parse_rust_file, hr] at hp

/-! ### Claim theorems -/

/-- C1: The claim says a file whose language has no analyzer is classified
but excluded from `files` and that no internal operation may panic.  The
code instead reaches `todo!` for every surviving file whose extension is
not `rs`: scanning a repository whose only file is `a.py` counts the file
into `languages` and then panics, aborting the process. -/
theorem c1_unsupported_extension_panics :
    walkRepo (.present c1tree) = .aborted "py" := rfl

/-- C2: The claim says a malformed source file yields `SourceParseError`,
is skipped, and the walk continues.  The analyzer does return the `Syn`
error, but `walk_repo` propagates it with `?`: the whole scan aborts with
`Err(Syn)` and the following well-formed `good.rs` is never processed. -/
theorem c2_malformed_source_aborts_walk :
    parse_rust_file "bad.rs" ⟨true, none, none⟩ = .error .syn ∧
    walkRepo (.present c2tree) = .err .syn := ⟨rfl, rfl⟩

/-- C3: The claim says a malformed manifest yields a default
`ManifestRecord` with the ecosystem set and never raises past the parser
boundary.  `CargoToml::parse` instead returns `Err(Toml)`, which
`walk_repo` propagates with `?`: the scan aborts and no record is added. -/
theorem c3_malformed_manifest_aborts_walk :
    CargoToml.parse ⟨true, none, none⟩ = .error .toml ∧
    walkRepo (.present c3tree) = .err .toml := ⟨rfl, rfl⟩

/-- C4: The claim says nothing inside a denylisted directory is ever
enumerated.  The filter is applied per entry inside the loop (there is no
`filter_entry`), so for the tree `r/target/lib.rs` the file `lib.rs` is
enumerated, counted into `languages`, analyzed, and included in `files`;
only the name `target` itself is kept out of `folders`. -/
theorem c4_denylisted_subtree_enumerated :
    walkRepo (.present c4tree) =
      .ok { repo_name := "r", languages := [("Rust", 1)],
            files := [FileInformation.new "lib.rs"], folders := ["r"],
            dependencies := [] } := rfl

/-- C5: The claim says a missing root path is reported as a fatal error
before traversal.  `WalkDir`'s error entry is silently discarded by
`filter_map(Result::ok)`, so `walk_repo` on a nonexistent root returns
`Ok` with an empty model instead of an error. -/
theorem c5_missing_root_returns_ok_empty :
    walkRepo (.missing "no-such-dir") = .ok (RepoCodeContext.new "no-such-dir") := rfl

/-- C6: After any completed scan, the sum of the values of `languages`
equals the number of enumerated files that survive `invalid_path` and
carry an extension — each classified file is counted exactly once. -/
theorem c6_language_counts_sum (root : Root) (r : RepoCodeContext)
    (h : walkRepo root = .ok r) :
    sumCounts r.languages = classifiedCount (rootEntries root) := by
  have := walkEntries_ok_sum (rootEntries root) (RepoCodeContext.new (rootName root)) r h
  simpa [RepoCodeContext.new, sumCounts] using this

/-- Witness for C6 on a one-file repository. -/
theorem c6_language_counts_sum_witness :
    walkRepo (.present c6tree) = .ok c6repo ∧
      sumCounts c6repo.languages = classifiedCount (rootEntries (.present c6tree)) :=
  ⟨rfl, c6_language_counts_sum (.present c6tree) c6repo rfl⟩

/-- Counterexample to C7 as stated: for `pub fn add(x: i32, y: i32)` the
extracted parameters are `"x : i32"`/`"y : i32"` — not the spec's
`name: type` rendering — and the absent return type is recorded as
`"None"`, not the spec's `"none"` sentinel. -/
theorem c7_spec_rendering_counterexample :
    parse_rust_file "lib.rs" c7bytes = .ok c7fi ∧
    lookupAssoc "add" c7fi.functions =
      some ⟨["x : i32", "y : i32"], "None", "public"⟩ ∧
    ["x : i32", "y : i32"] ≠ [specParamRender "x" "i32", specParamRender "y" "i32"] ∧
    "None" ≠ specNoneSentinel := by
  refine ⟨rfl, rfl, ?_, ?_⟩ <;> decide

/-- C7 (amended): every entry of a successfully analyzed file's
`functions` mapping comes from a top-level `fn` item whose name matches,
with parameters rendered in declaration order as `pat : ty` (a space on
each side of the colon, `"self"` for a receiver), `returns` equal to the
`"None"` sentinel exactly when no return type is declared, and visibility
`"public"` when the source marks it `pub` and `"private"` otherwise. -/
theorem c7_function_signature_shape (name : String) (bytes : FileBytes)
    (items : List Item) (fi : FileInformation) (fname : String)
    (meta : FunctionMeta) (hs : bytes.synResult = some items)
    (hp : parse_rust_file name bytes = .ok fi)
    (hl : lookupAssoc fname fi.functions = some meta) :
    ∃ f : ItemFn, Item.fn f ∈ items ∧ f.sig.ident = fname ∧
      meta.params = f.sig.inputs.map renderArg ∧
      meta.returns = renderOutput f.sig.output ∧
      meta.visibility = renderVis f.vis := by
  rw [parse_rust_file_ok name bytes items fi hs hp] at hl
  rcases foldl_processItem_functions items (FileInformation.new name) fname meta hl with
    h' | ⟨f, hf, hid, hm⟩
  · exact absurd h' (by simp [FileInformation.new, lookupAssoc])
  · exact ⟨f, hf, hid, by simp [hm, mkMeta]⟩

/-- Witness for the amended C7 at the `pub fn add` fixture. -/
theorem c7_function_signature_shape_witness :
    ∃ f : ItemFn, Item.fn f ∈ c7items ∧ f.sig.ident = "add" ∧
      (⟨["x : i32", "y : i32"], "None", "public"⟩ : FunctionMeta).params =
        f.sig.inputs.map renderArg ∧
      (⟨["x : i32", "y : i32"], "None", "public"⟩ : FunctionMeta).returns =
        renderOutput f.sig.output ∧
      (⟨["x : i32", "y : i32"], "None", "public"⟩ : FunctionMeta).visibility =
        renderVis f.vis :=
  c7_function_signature_shape "lib.rs" c7bytes c7items c7fi "add" _ rfl rfl rfl

/-- C8: the walk is a pure function of the (fixed, unchanged) tree: two
invocations that both complete produce structurally equal models — same
language counts, same folder sequence, same file names, and same
function/struct/enum keys per file. -/
theorem c8_walk_repo_deterministic (root : Root) (r₁ r₂ : RepoCodeContext)
    (h₁ : walkRepo root = .ok r₁) (h₂ : walkRepo root = .ok r₂) :
    r₁.languages = r₂.languages ∧
    r₁.folders = r₂.folders ∧
    r₁.files.map FileInformation.file_name = r₂.files.map FileInformation.file_name ∧
    r₁.files.map (fun fi => (fi.functions.map Prod.fst, fi.structs.map Prod.fst,
        fi.enums.map Prod.fst)) =
      r₂.files.map (fun fi => (fi.functions.map Prod.fst, fi.structs.map Prod.fst,
        fi.enums.map Prod.fst)) ∧
    r₁ = r₂ := by
  rw [h₁] at h₂
  injection h₂ with h
  subst h
  exact ⟨rfl, rfl, rfl, rfl, rfl⟩

/-- Witness for C8 on a two-entry repository. -/
theorem c8_walk_repo_deterministic_witness :
    c8repo.languages = c8repo.languages ∧
    c8repo.folders = c8repo.folders ∧
    c8repo.files.map FileInformation.file_name = c8repo.files.map FileInformation.file_name ∧
    c8repo.files.map (fun fi => (fi.functions.map Prod.fst, fi.structs.map Prod.fst,
        fi.enums.map Prod.fst)) =
      c8repo.files.map (fun fi => (fi.functions.map Prod.fst, fi.structs.map Prod.fst,
        fi.enums.map Prod.fst)) ∧
    c8repo = c8repo :=
  c8_walk_repo_deterministic (.present c8tree) c8repo c8repo rfl rfl

/-- C9: a file whose name yields no extension is skipped entirely — the
loop iteration for it is a no-op, so it is never counted, never checked
for manifest recognition, never analyzed, and yields no record. -/
theorem c9_extensionless_skipped (name : String) (bytes : FileBytes)
    (rest : List FsTree) (repo : RepoCodeContext)
    (h : pathExtension name = none) :
    walkEntries (.file name bytes :: rest) repo = walkEntries rest repo := by
  simp only [walkEntries, entryStep, fileStep, h]
  by_cases hv : invalid_path name <;> simp [hv]

/-- Witness for C9 on a `Makefile`. -/
theorem c9_extensionless_skipped_witness :
    pathExtension "Makefile" = none ∧
      walkEntries [.file "Makefile" ⟨true, none, none⟩] (RepoCodeContext.new "r") =
        walkEntries [] (RepoCodeContext.new "r") :=
  ⟨rfl, c9_extensionless_skipped "Makefile" ⟨true, none, none⟩ [] (RepoCodeContext.new "r") rfl⟩

/-- C10: in a successfully analyzed file, every `functions` entry comes
from a free-standing top-level `fn` item (functions inside `impl` blocks
are never extracted, since the catch-all arm ignores them), and the
`others` sequence is empty for every input. -/
theorem c10_top_level_only (name : String) (bytes : FileBytes)
    (items : List Item) (fi : FileInformation)
    (hs : bytes.synResult = some items)
    (hp : parse_rust_file name bytes = .ok fi) :
    fi.others = [] ∧
      ∀ fname meta, lookupAssoc fname fi.functions = some meta →
        ∃ f : ItemFn, Item.fn f ∈ items ∧ f.sig.ident = fname ∧ meta = mkMeta f := by
  rw [parse_rust_file_ok name bytes items fi hs hp]
  constructor
  · rw [foldl_processItem_others]
    rfl
  · intro fname meta hl
    rcases foldl_processItem_functions items (FileInformation.new name) fname meta hl with
      h' | hf
    · exact absurd h' (by simp [FileInformation.new, lookupAssoc])
    · exact hf

/-- Witness for C10 on a file with an `impl` method, a free function and a
constant. -/
theorem c10_top_level_only_witness :
    c10fi.others = [] ∧
      ∀ fname meta, lookupAssoc fname c10fi.functions = some meta →
        ∃ f : ItemFn, Item.fn f ∈ c10items ∧ f.sig.ident = fname ∧ meta = mkMeta f :=
  c10_top_level_only "m.rs" c10bytes c10items c10fi rfl rfl
